import Mathlib

/-! Module `tiny_dnn/core/backend.h`.

A shallow embedding of `tiny_dnn::core` as declared in `backend.h`:

* the capability descriptor `backend_t` and its stream formatter `operator <<`;
* the engine selector `default_engine`, as a function of the preprocessor flags;
* the NNPACK lifecycle guard `NNPackInitializer::initialize`;
* the data members of the abstract class `backend` with its constructor,
  `get_context` and `set_layer`.

Exceptions are modelled by `Except nn_error`, mutable objects by explicit state
passing, the external function `nnp_initialize` by the sequence of statuses its
successive invocations report together with a counter of the invocations made.
-/

deriving instance DecidableEq for Except

namespace tiny_dnn

/-- The exception class `nn_error`, carrying the message it was constructed with. -/
structure nn_error where
  msg : String
deriving DecidableEq, Repr

namespace core

/-! ## Capability descriptor and stream formatting -/

/-- The scoped enumeration `enum class backend_t`. Its underlying type is `int`, and every
value of the underlying type is a value of the enumeration (`static_cast<backend_t>(7)`),
so a descriptor is represented by its underlying integer. -/
structure backend_t where
  val : Int
deriving DecidableEq, Repr

namespace backend_t

/-- Enumerator `backend_t::internal` (first enumerator, value 0). -/
def internal : backend_t := ⟨0⟩
/-- Enumerator `backend_t::nnpack` (value 1). -/
def nnpack : backend_t := ⟨1⟩
/-- Enumerator `backend_t::libdnn` (value 2). -/
def libdnn : backend_t := ⟨2⟩
/-- Enumerator `backend_t::avx` (value 3). -/
def avx : backend_t := ⟨3⟩
/-- Enumerator `backend_t::opencl` (value 4). -/
def opencl : backend_t := ⟨4⟩

end backend_t

/-- A reference `std::ostream&`: the identity of an output sink. -/
abbrev ostream := Nat

/-- What a formatted insertion of a string reads and changes in a `std::ostream`: the
text written so far (`content`), whether the state is `goodbit` (`good`), the pending
field width `width()`, the fill character `fill()`, and whether the adjustment is `left`
(right and internal adjustment pad a string on its left). The exception mask is the
default `goodbit`: a failed insertion is reported in the state and does not throw. -/
structure ostream_state where
  content : String
  good : Bool
  width : Nat
  fill : Char
  left : Bool
deriving DecidableEq, Repr

namespace ostream_state

/-- A stream with the default formatting (state good, width 0, fill character space,
right adjustment) that holds the text `s`. -/
def holding (s : String) : ostream_state :=
  { content := s, good := true, width := 0, fill := Char.ofNat 32, left := false }

/-- The characters a formatted insertion of `s` produces: `s`, padded with the fill
character up to the pending field width. -/
def padded (st : ostream_state) (s : String) : String :=
  if st.left then s ++ String.mk (List.replicate (st.width - s.length) st.fill)
  else String.mk (List.replicate (st.width - s.length) st.fill) ++ s

/-- The formatted insertion `os << s` of a string literal, on the stream's own state: on a
stream that is not good nothing is written (the stream stays failed); otherwise the
padded string is appended and the field width is reset to 0. -/
def insert (st : ostream_state) (s : String) : ostream_state :=
  if st.good then { st with content := st.content ++ st.padded s, width := 0 } else st

end ostream_state

/-- The state of every output sink. -/
abbrev Sinks := ostream → ostream_state

/-- The insertion `os << s` of a string literal into the sink `os`; no other sink is
touched. -/
def Sinks.write (σ : Sinks) (os : ostream) (s : String) : Sinks :=
  fun o => if o = os then (σ o).insert s else σ o

/-- The formatter `std::ostream& operator << (std::ostream& os, backend_t type)`.
Returns the outcome (the returned reference, or the thrown `nn_error`) and the sinks
afterwards. -/
def operator_lshift (os : ostream) (type : backend_t) (σ : Sinks) :
    Except nn_error ostream × Sinks :=
  if type = backend_t.internal then (.ok os, σ.write os "Internal")
  else if type = backend_t.nnpack then (.ok os, σ.write os "NNPACK")
  else if type = backend_t.libdnn then (.ok os, σ.write os "LibDNN")
  else if type = backend_t.avx then (.ok os, σ.write os "AVX")
  else if type = backend_t.opencl then (.ok os, σ.write os "OpenCL")
  else (.error ⟨"Not supported ostream enum."⟩, σ)

/-! ## Engine selector -/

/-- The preprocessor symbols `default_engine` tests: whether each one is defined. -/
structure BuildFlags where
  CNN_USE_AVX : Bool
  __AVX__ : Bool
  __AVX2__ : Bool
deriving DecidableEq, Repr

/-- The selector `backend_t default_engine()`, for a given set of defined symbols. -/
def default_engine (f : BuildFlags) : backend_t :=
  if f.CNN_USE_AVX then
    if f.__AVX__ || f.__AVX2__ then backend_t.avx
    else backend_t.internal
  else backend_t.internal

/-! ## NNPACK lifecycle guard (`#ifdef CNN_USE_NNPACK`) -/

/-- The C enumeration `nnp_status` of `nnpack.h`, by its integer value. -/
abbrev nnp_status := Int

/-- The enumerator `nnp_status_success` of `nnpack.h`, whose value is 0. -/
def nnp_status_success : nnp_status := 0

/-- The NNPACK library as seen through `nnp_initialize`: `status k` is the status its
invocation number `k` (counted from 0) reports, `invocations` counts the invocations made
so far. Any behaviour of the library over a sequential run is such a sequence. -/
structure NNPack where
  status : Nat → nnp_status
  invocations : Nat

/-- The external call `nnp_initialize()`: reports the next status, and is counted. -/
def nnp_initialize (w : NNPack) : nnp_status × NNPack :=
  (w.status w.invocations, { w with invocations := w.invocations + 1 })

/-- The class `NNPackInitializer`: its only data member is the flag `initialized_`. -/
structure NNPackInitializer where
  initialized_ : Bool
deriving DecidableEq, Repr

namespace NNPackInitializer

/-- The object as constructed (`bool initialized_ = false;`), which is what
`getInstance()` refers to before any call of `initialize`. -/
def getInstance : NNPackInitializer := { initialized_ := false }

/-- The member function `void initialize()` (named with a trailing underscore, the plain
word being reserved in Lean). Returns the outcome (normal return, or the thrown
`nn_error`), the object afterwards and the library afterwards. -/
def initialize_ (self : NNPackInitializer) (w : NNPack) :
    Except nn_error Unit × NNPackInitializer × NNPack :=
  if self.initialized_ then (.ok (), self, w)
  else
    let r := nnp_initialize w
    let init_status := r.1
    if init_status ≠ nnp_status_success then
      (.error ⟨"Cannot initialize NNPACK."⟩, self, r.2)
    else
      (.ok (), { self with initialized_ := true }, r.2)

/-- The object and the library after `n` successive calls `initialize()` made by one
caller, who catches a thrown `nn_error` and goes on. -/
def after : Nat → NNPackInitializer → NNPack → NNPackInitializer × NNPack
  | 0, self, w => (self, w)
  | n + 1, self, w => (initialize_ (after n self w).1 (after n self w).2).2

/-- The outcome of call number `k` (counted from 0) of such a run. -/
def outcome (k : Nat) (self : NNPackInitializer) (w : NNPack) : Except nn_error Unit :=
  (initialize_ (after k self w).1 (after k self w).2).1

/-- Whether call number `k` of such a run invokes `nnp_initialize`. -/
def invokes (k : Nat) (self : NNPackInitializer) (w : NNPack) : Bool :=
  decide ((after (k + 1) self w).2.invocations ≠ (after k self w).2.invocations)

/-- The number of invocations of `nnp_initialize` made by the first `n` calls. -/
def setups (n : Nat) (self : NNPackInitializer) (w : NNPack) : Nat :=
  (after n self w).2.invocations - w.invocations

end NNPackInitializer

/-! ## Concurrent callers of `initialize`

`initialize` takes no lock and `initialized_` is a plain `bool`, so callers on several
threads interleave statement by statement. -/

/-- Where a caller stands within the body of `initialize()`. -/
inductive Pc where
  /-- About to read `initialized_` in `if (initialized_) return;`. -/
  | entry
  /-- About to call `nnp_initialize()`. -/
  | call
  /-- Holding `init_status`, about to compare it with `nnp_status_success`. -/
  | test (init_status : nnp_status)
  /-- About to assign `initialized_ = true`. -/
  | store
  /-- Has returned normally. -/
  | returned
  /-- Has thrown `nn_error("Cannot initialize NNPACK.")`. -/
  | thrown
deriving DecidableEq, Repr

/-- The next statement of `initialize()` for a caller standing at `pc`, acting on the
shared object and the library. A caller that has returned or thrown does nothing. -/
def Pc.step (pc : Pc) (self : NNPackInitializer) (w : NNPack) :
    Pc × NNPackInitializer × NNPack :=
  match pc with
  | .entry => if self.initialized_ then (.returned, self, w) else (.call, self, w)
  | .call => (.test ( nnp_initialize w).1, self, ( nnp_initialize w).2)
  | .test init_status =>
    if init_status ≠ nnp_status_success then (.thrown, self, w) else (.store, self, w)
  | .store => (.returned, { self with initialized_ := true }, w)
  | .returned => (.returned, self, w)
  | .thrown => (.thrown, self, w)

/-- Whether a caller at `pc` may still go on to call `nnp_initialize` (1) or not (0). -/
def Pc.pending : Pc → Nat
  | .entry => 1
  | .call => 1
  | _ => 0

/-- The singleton shared by the callers, the library, and where each caller stands. -/
structure Callers where
  self : NNPackInitializer
  nnpack : NNPack
  pcs : List Pc

namespace Callers

/-- The state in which `T` callers are each about to enter `initialize()` on the
singleton as constructed. -/
def start (T : Nat) (w : NNPack) : Callers :=
  { self := NNPackInitializer.getInstance, nnpack := w, pcs := List.replicate T Pc.entry }

/-- Caller number `t` executes its next statement (no caller `t`: nothing happens). -/
def step (t : Nat) (s : Callers) : Callers :=
  match s.pcs[t]? with
  | none => s
  | some pc =>
    { self := (pc.step s.self s.nnpack).2.1
      nnpack := (pc.step s.self s.nnpack).2.2
      pcs := s.pcs.set t (pc.step s.self s.nnpack).1 }

/-- An interleaving: the callers named by `sched` execute one statement each, in turn. -/
def run (sched : List Nat) (s : Callers) : Callers :=
  sched.foldl (fun s t => step t s) s

/-- Whether the next statement of caller `t` invokes `nnp_initialize`, that is, whether
it moves the library's count of invocations. -/
def stepInvokes (t : Nat) (s : Callers) : Bool :=
  decide ((step t s).nnpack.invocations ≠ s.nnpack.invocations)

/-- The number of invocations of `nnp_initialize` that caller `t` makes in the course of
the interleaving `sched` run from `s`. -/
def invokedBy (t : Nat) : List Nat → Callers → Nat
  | [], _ => 0
  | u :: sched, s =>
    (if u = t ∧ stepInvokes u s = true then 1 else 0) + invokedBy t sched (step u s)

/-- Whether caller `t` may still go on to call `nnp_initialize` (1) or not (0). -/
def pendingAt (t : Nat) (s : Callers) : Nat :=
  match s.pcs[t]? with
  | some pc => pc.pending
  | none => 0

/-- What a program point tells about the past, for callers started with the library `w`
when the flag is `flag` and `inv` invocations are counted: a held status was reported, a
caller past the test saw success, a caller that returned left or found the flag set, a
caller that threw saw a failure. -/
def PcOk (w : NNPack) (flag : Bool) (inv : Nat) : Pc → Prop
  | .entry => True
  | .call => True
  | .test st => ∃ i, w.invocations ≤ i ∧ i < inv ∧ w.status i = st
  | .store => ∃ i, w.invocations ≤ i ∧ i < inv ∧ w.status i = nnp_status_success
  | .returned => flag = true
  | .thrown => ∃ i, w.invocations ≤ i ∧ i < inv ∧ w.status i ≠ nnp_status_success

/-- The invariant of every interleaving of `T` callers started with the library `w`. -/
def Inv (T : Nat) (w : NNPack) (s : Callers) : Prop :=
  s.nnpack.status = w.status ∧
  w.invocations ≤ s.nnpack.invocations ∧
  s.nnpack.invocations + (s.pcs.map Pc.pending).sum ≤ w.invocations + T ∧
  (s.self.initialized_ = true →
    ∃ i, w.invocations ≤ i ∧ i < s.nnpack.invocations ∧ w.status i = nnp_status_success) ∧
  (∀ pc, pc ∈ s.pcs → PcOk w s.self.initialized_ s.nnpack.invocations pc)

end Callers

/-! ## The abstract class `backend` -/

/-- A pointer `context*`: `none` is `nullptr`, `some a` the address `a`. -/
abbrev context_ptr := Option Nat

/-- The pointer type `layerptr_t`: `none` is `nullptr`, `some a` the address `a`. -/
abbrev layerptr_t := Option Nat

/-- The data members of `class backend` (`context* ctx_; layerptr_t layer_;`). -/
structure backend where
  ctx_ : context_ptr
  layer_ : layerptr_t
deriving DecidableEq, Repr

set_option linter.dupNamespace false

namespace backend

/-- The constructor `explicit backend(context* ctx_ = nullptr)`. It has no member
initializer list and its body is `CNN_UNREFERENCED_PARAMETER(ctx_);` where `ctx_` names
the parameter, so no data member is assigned: the members keep whatever the object's
storage `storage` held before construction. -/
def backend (storage : tiny_dnn.core.backend) (ctx_ : context_ptr) : tiny_dnn.core.backend :=
  let _ := ctx_
  storage

/-- The accessor `context* get_context() const`: returns the member `ctx_`. -/
def get_context (self : tiny_dnn.core.backend) : context_ptr := self.ctx_

/-- The member function `void set_layer(layerptr_t layer)`: assigns `layer_`. -/
def set_layer (self : tiny_dnn.core.backend) (layer : layerptr_t) : tiny_dnn.core.backend :=
  { self with layer_ := layer }

end backend

end core
end tiny_dnn

open tiny_dnn tiny_dnn.core

namespace tiny_dnn.core

/-! ## Auxiliary facts on formatted insertion -/

namespace NNPackInitializer

theorem initialize_status (self : NNPackInitializer) (w : NNPack) :
    (initialize_ self w).2.2.status = w.status := by
  unfold initialize_ nnp_initialize
  dsimp only
  split_ifs <;> rfl

theorem initialize_invocations (self : NNPackInitializer) (w : NNPack) :
    (initialize_ self w).2.2.invocations =
      if self.initialized_ then w.invocations else w.invocations + 1 := by
  unfold initialize_ nnp_initialize
  dsimp only
  split_ifs <;> rfl

theorem after_status (n : Nat) (self : NNPackInitializer) (w : NNPack) :
    (after n self w).2.status = w.status := by
  induction n with
  | zero => rfl
  | succ n ih => simp only [after]; rw [initialize_status, ih]

/-- A run from the uninitialized object: either every invocation so far failed, one per
call, or the flag is set and the last invocation made is the first to report success. -/
theorem after_spec (n : Nat) (w : NNPack) :
    ((after n getInstance w).1.initialized_ = false ∧
      (after n getInstance w).2.invocations = w.invocations + n ∧
      ∀ j, j < n → w.status (w.invocations + j) ≠ nnp_status_success) ∨
    ((after n getInstance w).1.initialized_ = true ∧
      ∃ m, m < n ∧ (after n getInstance w).2.invocations = w.invocations + m + 1 ∧
        w.status (w.invocations + m) = nnp_status_success ∧
        ∀ j, j < m → w.status (w.invocations + j) ≠ nnp_status_success) := by
  induction n with
  | zero => left; simp [after, getInstance]
  | succ n ih =>
    have hst := after_status n getInstance w
    rcases ih with ⟨hf, hinv, hall⟩ | ⟨ht, m, hm, hinv, hs, hall⟩
    · by_cases hs : w.status (w.invocations + n) = nnp_status_success
      · right
        refine ⟨?_, n, Nat.lt_succ_self n, ?_, hs, hall⟩
        · simp [after, initialize_, nnp_initialize, hf, hst, hinv, hs]
        · simp [after, initialize_, nnp_initialize, hf, hst, hinv, hs]
      · left
        refine ⟨?_, ?_, ?_⟩
        · simp [after, initialize_, nnp_initialize, hf, hst, hinv, hs]
        · simp [after, initialize_, nnp_initialize, hf, hst, hinv, hs, Nat.add_assoc]
        · intro j hj
          rcases Nat.lt_succ_iff_lt_or_eq.mp hj with h | h
          · exact hall j h
          · subst h; exact hs
    · right
      refine ⟨?_, m, Nat.lt_succ_of_lt hm, ?_, hs, hall⟩
      · simp [after, initialize_, ht]
      · simp [after, initialize_, ht, hinv]

/-- The flag is still unset after `n` calls exactly when the first `n` invocations fail. -/
theorem after_flag_false_iff (n : Nat) (w : NNPack) :
    (after n getInstance w).1.initialized_ = false ↔
      ∀ j, j < n → w.status (w.invocations + j) ≠ nnp_status_success := by
  rcases after_spec n w with ⟨hf, _, hall⟩ | ⟨ht, m, hm, _, hs, _⟩
  · exact ⟨fun _ => hall, fun _ => hf⟩
  · constructor
    · intro h; rw [ht] at h; cases h
    · intro h; exact absurd hs (h m hm)

theorem after_invocations_of_false (n : Nat) (w : NNPack)
    (h : (after n getInstance w).1.initialized_ = false) :
    (after n getInstance w).2.invocations = w.invocations + n := by
  rcases after_spec n w with ⟨_, hinv, _⟩ | ⟨ht, _⟩
  · exact hinv
  · rw [ht] at h; cases h

/-- Call number `k` fails exactly when the first `k + 1` invocations fail. -/
theorem outcome_error_iff (k : Nat) (w : NNPack) :
    outcome k getInstance w = .error ⟨"Cannot initialize NNPACK."⟩ ↔
      ∀ j, j < k + 1 → w.status (w.invocations + j) ≠ nnp_status_success := by
  have hst := after_status k getInstance w
  cases hflag : (after k getInstance w).1.initialized_ with
  | true =>
    have hno : ¬ ∀ j, j < k → w.status (w.invocations + j) ≠ nnp_status_success := by
      intro h
      have := (after_flag_false_iff k w).mpr h
      rw [hflag] at this; cases this
    constructor
    · intro h; simp [outcome, initialize_, hflag] at h
    · intro h; exact absurd (fun j hj => h j (Nat.lt_succ_of_lt hj)) hno
  | false =>
    have hall := (after_flag_false_iff k w).mp hflag
    have hinv := after_invocations_of_false k w hflag
    by_cases hs : w.status (w.invocations + k) = nnp_status_success
    · constructor
      · intro h; simp [outcome, initialize_, nnp_initialize, hflag, hst, hinv, hs] at h
      · intro h; exact absurd hs (h k (Nat.lt_succ_self k))
    · constructor
      · intro _ j hj
        rcases Nat.lt_succ_iff_lt_or_eq.mp hj with h | h
        · exact hall j h
        · subst h; exact hs
      · intro _; simp [outcome, initialize_, nnp_initialize, hflag, hst, hinv, hs]

/-- Every call either returns normally or throws the one `nn_error` of `initialize`. -/
theorem outcome_cases (k : Nat) (self : NNPackInitializer) (w : NNPack) :
    outcome k self w = .ok () ∨ outcome k self w = .error ⟨"Cannot initialize NNPACK."⟩ := by
  unfold outcome initialize_
  dsimp only
  split_ifs <;> simp

theorem outcome_ok_iff (k : Nat) (w : NNPack) :
    outcome k getInstance w = .ok () ↔
      ¬ ∀ j, j < k + 1 → w.status (w.invocations + j) ≠ nnp_status_success := by
  rw [← outcome_error_iff]
  rcases outcome_cases k getInstance w with h | h <;> simp [h]

/-- Call number `k` invokes `nnp_initialize` exactly when the first `k` invocations fail. -/
theorem invokes_iff (k : Nat) (w : NNPack) :
    invokes k getInstance w = true ↔
      ∀ j, j < k → w.status (w.invocations + j) ≠ nnp_status_success := by
  rw [← after_flag_false_iff]
  have h := initialize_invocations (after k getInstance w).1 (after k getInstance w).2
  cases hflag : (after k getInstance w).1.initialized_ <;>
    simp [invokes, after, h, hflag]

theorem after_invocations_succ (k : Nat) (w : NNPack) :
    (after (k + 1) getInstance w).2.invocations =
      (after k getInstance w).2.invocations + (if invokes k getInstance w then 1 else 0) := by
  have h := initialize_invocations (after k getInstance w).1 (after k getInstance w).2
  cases hflag : (after k getInstance w).1.initialized_ <;>
    simp [invokes, after, h, hflag]

theorem after_invocations_ge (n : Nat) (w : NNPack) :
    w.invocations ≤ (after n getInstance w).2.invocations := by
  rcases after_spec n w with ⟨_, hinv, _⟩ | ⟨_, m, _, hinv, _⟩ <;> omega

/-- Some call among the first `n` returns normally exactly when one of the first `n`
invocations reports success. -/
theorem any_ok_iff (n : Nat) (w : NNPack) :
    (List.range n).any (fun k => decide (outcome k getInstance w = .ok ())) = true ↔
      ¬ ∀ j, j < n → w.status (w.invocations + j) ≠ nnp_status_success := by
  simp only [List.any_eq_true, List.mem_range, decide_eq_true_eq, outcome_ok_iff]
  constructor
  · rintro ⟨k, hk, hno⟩ hall
    exact hno (fun j hj => hall j (by omega))
  · intro hno
    cases n with
    | zero => exact absurd (fun j hj => absurd hj (Nat.not_lt_zero j)) hno
    | succ n => exact ⟨n, Nat.lt_succ_self n, hno⟩

theorem setups_succ (n : Nat) (w : NNPack) :
    setups (n + 1) getInstance w =
      setups n getInstance w + (if invokes n getInstance w then 1 else 0) := by
  have h1 := after_invocations_succ n w
  have h2 := after_invocations_ge n w
  unfold setups
  omega

/-- The invocations made by `n` calls: one per failing call, and one more if some call
returned normally. -/
theorem setups_eq (n : Nat) (w : NNPack) :
    setups n getInstance w =
      (List.range n).countP (fun k => decide (outcome k getInstance w ≠ .ok ())) +
        (if (List.range n).any (fun k => decide (outcome k getInstance w = .ok ())) then 1
          else 0) := by
  induction n with
  | zero => simp [setups, after]
  | succ n ih =>
    rw [setups_succ, ih, List.range_succ, List.countP_append]
    have hany := any_ok_iff n w
    have hany1 := any_ok_iff (n + 1) w
    have hinv := invokes_iff n w
    have hok := outcome_ok_iff n w
    rw [List.range_succ] at hany1
    by_cases ha : ∀ j, j < n → w.status (w.invocations + j) ≠ nnp_status_success
    · have e1 : invokes n getInstance w = true := hinv.mpr ha
      have e2 : (List.range n).any (fun k => decide (outcome k getInstance w = .ok ()))
          = false := by
        rw [← Bool.not_eq_true, hany]; exact not_not.mpr ha
      by_cases hb : ∀ j, j < n + 1 → w.status (w.invocations + j) ≠ nnp_status_success
      · have e3 : ¬ outcome n getInstance w = .ok () := fun h => hok.mp h hb
        have e4 : (List.range n ++ [n]).any
            (fun k => decide (outcome k getInstance w = .ok ())) = false := by
          rw [← Bool.not_eq_true, hany1]; exact not_not.mpr hb
        rw [e1, e2, e4]
        simp [e3]
      · have e3 : outcome n getInstance w = .ok () := hok.mpr hb
        have e4 : (List.range n ++ [n]).any
            (fun k => decide (outcome k getInstance w = .ok ())) = true := hany1.mpr hb
        rw [e1, e2, e4]
        simp [e3]
    · have hb : ¬ ∀ j, j < n + 1 → w.status (w.invocations + j) ≠ nnp_status_success :=
        fun h => ha (fun j hj => h j (Nat.lt_succ_of_lt hj))
      have e1 : invokes n getInstance w = false := by
        rw [← Bool.not_eq_true, hinv]; exact ha
      have e2 : (List.range n).any (fun k => decide (outcome k getInstance w = .ok ()))
          = true := hany.mpr ha
      have e3 : outcome n getInstance w = .ok () := hok.mpr hb
      have e4 : (List.range n ++ [n]).any
          (fun k => decide (outcome k getInstance w = .ok ())) = true := hany1.mpr hb
      rw [e1, e2, e4]
      simp [e3]

/-- Among the invocations made by `n` calls only the last one can report success. -/
theorem setups_success_last (n : Nat) (w : NNPack) (i : Nat)
    (hi : i < setups n getInstance w)
    (hs : w.status (w.invocations + i) = nnp_status_success) :
    i + 1 = setups n getInstance w := by
  unfold setups at hi ⊢
  rcases after_spec n w with ⟨_, hinv, hall⟩ | ⟨_, m, hm, hinv, _, hall⟩
  · exact absurd hs (hall i (by omega))
  · by_cases him : i < m
    · exact absurd hs (hall i him)
    · omega

end NNPackInitializer

end tiny_dnn.core

namespace tiny_dnn.core

/-! ## Auxiliary facts on interleavings of callers -/

namespace Callers

theorem pending_set (l : List Pc) (t : Nat) (pc pc' : Pc) (h : l[t]? = some pc) :
    ((l.set t pc').map Pc.pending).sum + pc.pending =
      (l.map Pc.pending).sum + pc'.pending := by
  induction l generalizing t with
  | nil => simp at h
  | cons a l ih =>
    cases t with
    | zero =>
      simp only [List.getElem?_cons_zero, Option.some.injEq] at h
      subst h
      simp only [List.set_cons_zero, List.map_cons, List.sum_cons]
      omega
    | succ t =>
      simp only [List.getElem?_cons_succ] at h
      have := ih t h
      simp only [List.set_cons_succ, List.map_cons, List.sum_cons]
      omega

theorem PcOk.mono {w : NNPack} {flag flag' : Bool} {inv inv' : Nat} {pc : Pc}
    (h : PcOk w flag inv pc) (hflag : flag = true → flag' = true) (hinv : inv ≤ inv') :
    PcOk w flag' inv' pc := by
  cases pc with
  | entry => trivial
  | call => trivial
  | test st => obtain ⟨i, h1, h2, h3⟩ := h; exact ⟨i, h1, by omega, h3⟩
  | store => obtain ⟨i, h1, h2, h3⟩ := h; exact ⟨i, h1, by omega, h3⟩
  | returned => exact hflag h
  | thrown => obtain ⟨i, h1, h2, h3⟩ := h; exact ⟨i, h1, by omega, h3⟩

theorem inv_start (T : Nat) (w : NNPack) : Inv T w (start T w) := by
  refine ⟨rfl, Nat.le_refl _, ?_, ?_, ?_⟩
  · have : ((List.replicate T Pc.entry).map Pc.pending).sum = T := by
      induction T with
      | zero => rfl
      | succ T ih =>
        simp only [List.replicate_succ, List.map_cons, List.sum_cons, ih, Pc.pending]
        omega
    simp only [start, this]
    omega
  · intro h; simp [start, NNPackInitializer.getInstance] at h
  · intro pc hpc
    simp only [start] at hpc
    rw [List.eq_of_mem_replicate hpc]
    trivial

/-- Replacing the program point of one caller and the shared state keeps the invariant,
when the replacement respects what the invariant records. -/
theorem inv_update {T : Nat} {w : NNPack} {s : Callers} (hI : Inv T w s) {t : Nat} {pc : Pc}
    (h : s.pcs[t]? = some pc) (pc' : Pc) (self' : NNPackInitializer) (w' : NNPack)
    (hst : w'.status = s.nnpack.status)
    (hle : s.nnpack.invocations ≤ w'.invocations)
    (hpend : w'.invocations + pc'.pending ≤ s.nnpack.invocations + pc.pending)
    (hmono : s.self.initialized_ = true → self'.initialized_ = true)
    (hflag : self'.initialized_ = true →
      ∃ i, w.invocations ≤ i ∧ i < w'.invocations ∧ w.status i = nnp_status_success)
    (hpc : PcOk w self'.initialized_ w'.invocations pc') :
    Inv T w { self := self', nnpack := w', pcs := s.pcs.set t pc' } := by
  obtain ⟨h1, h2, h3, _, h5⟩ := hI
  refine ⟨hst.trans h1, Nat.le_trans h2 hle, ?_, hflag, ?_⟩
  · have := pending_set s.pcs t pc pc' h
    show w'.invocations + ((s.pcs.set t pc').map Pc.pending).sum ≤ w.invocations + T
    omega
  · intro q hq
    rcases List.mem_or_eq_of_mem_set hq with hq | hq
    · exact (h5 q hq).mono hmono hle
    · rw [hq]; exact hpc

theorem inv_step {T : Nat} {w : NNPack} {s : Callers} (hI : Inv T w s) (t : Nat) :
    Inv T w (step t s) := by
  unfold step
  cases h : s.pcs[t]? with
  | none => exact hI
  | some pc =>
    have hmem : pc ∈ s.pcs := List.getElem?_mem h
    have hok := hI.2.2.2.2 pc hmem
    have hfl := hI.2.2.2.1
    have hstat := hI.1
    have hge := hI.2.1
    cases pc with
    | entry =>
      cases hflag : s.self.initialized_ with
      | true =>
        simp only [Pc.step, hflag, if_true]
        exact inv_update hI h _ _ _ rfl (Nat.le_refl _) (by simp [Pc.pending]) (fun _ => hflag)
          (fun _ => hfl hflag) hflag
      | false =>
        simp only [Pc.step, hflag, Bool.false_eq_true, if_false]
        exact inv_update hI h _ _ _ rfl (Nat.le_refl _) (by simp [Pc.pending]) id hfl trivial
    | call =>
      simp only [Pc.step, nnp_initialize]
      refine inv_update hI h _ _ _ rfl (Nat.le_succ _) (by simp [Pc.pending]) id ?_ ?_
      · intro hf
        obtain ⟨i, h1, h2, h3⟩ := hfl hf
        exact ⟨i, h1, Nat.lt_succ_of_lt h2, h3⟩
      · exact ⟨s.nnpack.invocations, hge, Nat.lt_succ_self _, by rw [hstat]⟩
    | test st =>
      obtain ⟨i, h1, h2, h3⟩ := hok
      by_cases hs : st = nnp_status_success
      · simp only [Pc.step, hs, ne_eq, not_true_eq_false, if_false]
        exact inv_update hI h _ _ _ rfl (Nat.le_refl _) (by simp [Pc.pending]) id hfl
          ⟨i, h1, h2, h3.trans hs⟩
      · simp only [Pc.step, hs, ne_eq, not_false_eq_true, if_true]
        exact inv_update hI h _ _ _ rfl (Nat.le_refl _) (by simp [Pc.pending]) id hfl
          ⟨i, h1, h2, by rw [h3]; exact hs⟩
    | store =>
      simp only [Pc.step]
      exact inv_update hI h _ _ _ rfl (Nat.le_refl _) (by simp [Pc.pending]) (fun _ => rfl)
        (fun _ => hok) rfl
    | returned =>
      simp only [Pc.step]
      exact inv_update hI h _ _ _ rfl (Nat.le_refl _) (by simp [Pc.pending]) id hfl hok
    | thrown =>
      simp only [Pc.step]
      exact inv_update hI h _ _ _ rfl (Nat.le_refl _) (by simp [Pc.pending]) id hfl hok

theorem inv_run {T : Nat} {w : NNPack} (sched : List Nat) {s : Callers} (hI : Inv T w s) :
    Inv T w (run sched s) := by
  induction sched generalizing s with
  | nil => exact hI
  | cons t sched ih => exact ih (inv_step hI t)

/-- A step never clears the flag. -/
theorem step_flag {s : Callers} (t : Nat) (h : s.self.initialized_ = true) :
    (step t s).self.initialized_ = true := by
  unfold step
  cases hp : s.pcs[t]? with
  | none => exact h
  | some pc =>
    cases pc with
    | test st => simp only [Pc.step]; split_ifs <;> exact h
    | _ => simp [Pc.step, h]

theorem run_flag (sched : List Nat) {s : Callers} (h : s.self.initialized_ = true) :
    (run sched s).self.initialized_ = true := by
  induction sched generalizing s with
  | nil => exact h
  | cons t sched ih => exact ih (step_flag t h)

/-- A statement invokes `nnp_initialize` exactly when its caller stands at the call. -/
theorem stepInvokes_iff (t : Nat) (s : Callers) :
    stepInvokes t s = true ↔ s.pcs[t]? = some Pc.call := by
  unfold stepInvokes step
  cases h : s.pcs[t]? with
  | none => simp
  | some pc =>
    cases pc with
    | entry => simp only [Pc.step]; split_ifs <;> simp
    | test st => simp only [Pc.step]; split_ifs <;> simp
    | _ => simp [Pc.step, nnp_initialize]

theorem step_pcs_of_ne {t u : Nat} (s : Callers) (h : u ≠ t) :
    (step u s).pcs[t]? = s.pcs[t]? := by
  unfold step
  cases hu : s.pcs[u]? with
  | none => rfl
  | some pc => simp [List.getElem?_set_ne h]

theorem step_pcs_self {t : Nat} {s : Callers} {pc : Pc} (h : s.pcs[t]? = some pc) :
    (step t s).pcs[t]? = some (pc.step s.self s.nnpack).1 := by
  unfold step
  simp [h, List.getElem?_set_self']

theorem step_length (u : Nat) (s : Callers) : (step u s).pcs.length = s.pcs.length := by
  unfold step
  cases hu : s.pcs[u]? <;> simp

theorem step_invocations (u : Nat) (s : Callers) :
    (step u s).nnpack.invocations =
      s.nnpack.invocations + (if stepInvokes u s = true then 1 else 0) := by
  by_cases h : stepInvokes u s = true
  · have hc := (stepInvokes_iff u s).mp h
    simp [h, step, hc, Pc.step, nnp_initialize]
  · have h0 : (step u s).nnpack.invocations = s.nnpack.invocations := by
      simpa [stepInvokes] using h
    simp [h, h0]

/-- A step of caller `t` away from the call, or a step of another caller, never gives
caller `t` a new occasion to call. -/
theorem pendingAt_step_le (t u : Nat) (s : Callers) : pendingAt t (step u s) ≤ pendingAt t s := by
  by_cases hut : u = t
  · subst hut
    unfold pendingAt
    cases h : s.pcs[u]? with
    | none => simp [step, h]
    | some pc =>
      rw [step_pcs_self h]
      cases pc with
      | entry => simp only [Pc.step]; split_ifs <;> simp [Pc.pending]
      | test st => simp only [Pc.step]; split_ifs <;> simp [Pc.pending]
      | _ => simp [Pc.step, Pc.pending]
  · unfold pendingAt
    rw [step_pcs_of_ne s hut]

/-- A caller makes no more invocations than it has occasions left: at most one, and none
once it is past the call. -/
theorem invokedBy_le_pendingAt (t : Nat) (sched : List Nat) (s : Callers) :
    invokedBy t sched s ≤ pendingAt t s := by
  induction sched generalizing s with
  | nil => exact Nat.zero_le _
  | cons u sched ih =>
    simp only [invokedBy]
    by_cases h : u = t ∧ stepInvokes u s = true
    · obtain ⟨hut, hinv⟩ := h
      subst hut
      have hc := (stepInvokes_iff u s).mp hinv
      have h1 : pendingAt u (step u s) = 0 := by
        unfold pendingAt
        rw [step_pcs_self hc]
        rfl
      have h2 : pendingAt u s = 1 := by
        unfold pendingAt
        rw [hc]
        rfl
      have := ih (step u s)
      simp only [hinv, and_self, if_true]
      omega
    · have := ih (step u s)
      have := pendingAt_step_le t u s
      simp only [h, if_false]
      omega

/-- A caller that stands at the call makes exactly one invocation in any continuation in
which it is scheduled, whatever the other callers do in between. -/
theorem invokedBy_of_call (t : Nat) (sched : List Nat) (s : Callers)
    (hc : s.pcs[t]? = some Pc.call) (hmem : t ∈ sched) : invokedBy t sched s = 1 := by
  induction sched generalizing s with
  | nil => cases hmem
  | cons u sched ih =>
    simp only [invokedBy]
    by_cases hut : u = t
    · subst hut
      have hinv := (stepInvokes_iff u s).mpr hc
      have h1 : pendingAt u (step u s) = 0 := by
        unfold pendingAt
        rw [step_pcs_self hc]
        rfl
      have := invokedBy_le_pendingAt u sched (step u s)
      simp only [hinv, and_self, if_true]
      omega
    · have hmem' : t ∈ sched := by
        rcases List.mem_cons.mp hmem with h | h
        · exact absurd h.symm hut
        · exact h
      have := ih (step u s) (by rw [step_pcs_of_ne s hut]; exact hc) hmem'
      simp only [hut, false_and, if_false]
      omega

theorem sum_indicator (n u : Nat) (b : Prop) [Decidable b] :
    ((List.range n).map (fun t => if u = t ∧ b then 1 else 0)).sum =
      if u < n ∧ b then 1 else 0 := by
  induction n with
  | zero => simp
  | succ n ih =>
    rw [List.range_succ, List.map_append, List.sum_append, ih]
    by_cases hb : b
    · rcases Nat.lt_trichotomy u n with h | h | h
      · have h1 : u < n + 1 := by omega
        have h2 : u ≠ n := by omega
        simp [h, h1, h2, hb]
      · subst h; simp [hb]
      · have h1 : ¬ u < n + 1 := by omega
        have h2 : ¬ u < n := by omega
        have h3 : u ≠ n := by omega
        simp [h1, h2, h3]
    · simp [hb]

/-- The invocations counted by the library are those made by the callers. -/
theorem run_invocations (sched : List Nat) (s : Callers) :
    (run sched s).nnpack.invocations =
      s.nnpack.invocations +
        ((List.range s.pcs.length).map (fun t => invokedBy t sched s)).sum := by
  induction sched generalizing s with
  | nil => simp [run, invokedBy]
  | cons u sched ih =>
    have hrun : run (u :: sched) s = run sched (step u s) := rfl
    rw [hrun, ih (step u s), step_length, step_invocations]
    simp only [invokedBy]
    rw [List.sum_map_add, sum_indicator]
    by_cases h : stepInvokes u s = true
    · have hc := (stepInvokes_iff u s).mp h
      have hlt : u < s.pcs.length := by
        rcases Nat.lt_or_ge u s.pcs.length with h' | h'
        · exact h'
        · rw [List.getElem?_eq_none h'] at hc; cases hc
      simp only [h, hlt, and_self, if_true]
      omega
    · have hf : stepInvokes u s = false := by simpa using h
      simp [hf]

theorem run_length (sched : List Nat) (s : Callers) :
    (run sched s).pcs.length = s.pcs.length := by
  induction sched generalizing s with
  | nil => rfl
  | cons u sched ih =>
    have hrun : run (u :: sched) s = run sched (step u s) := rfl
    rw [hrun, ih (step u s), step_length]

theorem pendingAt_le_one (t : Nat) (s : Callers) : pendingAt t s ≤ 1 := by
  unfold pendingAt
  cases s.pcs[t]? with
  | none => exact Nat.zero_le _
  | some pc => cases pc <;> simp [Pc.pending]

/-- A sum over the callers, with the term of one caller taken out. -/
theorem sum_split_one (f : Nat → Nat) (n t : Nat) (ht : t < n) :
    ((List.range n).map f).sum =
      f t + (((List.range n).filter (fun i => decide (i ≠ t))).map f).sum := by
  induction n with
  | zero => omega
  | succ n ih =>
    rw [List.range_succ, List.filter_append, List.map_append, List.map_append,
      List.sum_append, List.sum_append]
    by_cases hnt : n = t
    · subst hnt
      have h2 : (List.range n).filter (fun i => decide (i ≠ n)) = List.range n := by
        rw [List.filter_eq_self]
        intro i hi
        have : i ≠ n := by have := List.mem_range.mp hi; omega
        simp [this]
      rw [h2]
      simp
      omega
    · have ht' : t < n := by omega
      rw [ih ht']
      simp [hnt]
      omega

/-- A sum over the callers, with the terms of two distinct callers taken out. -/
theorem sum_split_two (f : Nat → Nat) (n t u : Nat) (htu : t ≠ u) (ht : t < n) (hu : u < n) :
    ((List.range n).map f).sum =
      f t + f u + (((List.range n).filter (fun i => decide (i ≠ t ∧ i ≠ u))).map f).sum := by
  induction n with
  | zero => omega
  | succ n ih =>
    rw [List.range_succ, List.filter_append, List.map_append, List.map_append,
      List.sum_append, List.sum_append]
    by_cases hnt : n = t
    · subst hnt
      have hu' : u < n := by omega
      have h1 := sum_split_one f n u hu'
      have h2 : (List.range n).filter (fun i => decide (i ≠ n ∧ i ≠ u)) =
          (List.range n).filter (fun i => decide (i ≠ u)) := by
        apply List.filter_congr
        intro i hi
        have : i ≠ n := by have := List.mem_range.mp hi; omega
        simp [this]
      rw [h1, h2]
      simp
      omega
    · by_cases hnu : n = u
      · subst hnu
        have ht' : t < n := by omega
        have h1 := sum_split_one f n t ht'
        have h2 : (List.range n).filter (fun i => decide (i ≠ t ∧ i ≠ n)) =
            (List.range n).filter (fun i => decide (i ≠ t)) := by
          apply List.filter_congr
          intro i hi
          have : i ≠ n := by have := List.mem_range.mp hi; omega
          simp [this]
        rw [h1, h2]
        simp
        omega
      · have ht' : t < n := by omega
        have hu' : u < n := by omega
        rw [ih ht' hu']
        simp [hnt, hnu]
        omega

/-- One caller running alone through the four statements does what `initialize` does. -/
theorem run_alone (self : NNPackInitializer) (w : NNPack) :
    (run [0, 0, 0, 0] { self := self, nnpack := w, pcs := [Pc.entry] }).self =
        (NNPackInitializer.initialize_ self w).2.1 ∧
    (run [0, 0, 0, 0] { self := self, nnpack := w, pcs := [Pc.entry] }).nnpack =
        (NNPackInitializer.initialize_ self w).2.2 ∧
    (run [0, 0, 0, 0] { self := self, nnpack := w, pcs := [Pc.entry] }).pcs =
        [match (NNPackInitializer.initialize_ self w).1 with
          | .ok _ => Pc.returned
          | .error _ => Pc.thrown] := by
  obtain ⟨flag⟩ := self
  cases flag
  · by_cases hs : w.status w.invocations = nnp_status_success <;>
      simp [run, step, Pc.step, NNPackInitializer.initialize_, nnp_initialize, hs]
  · simp [run, step, Pc.step, NNPackInitializer.initialize_]

end Callers

open NNPackInitializer

/-! ## Stream formatter -/

/-- C3: `operator <<` throws `nn_error` exactly for the descriptors whose underlying
integer is not one of 0..4; in that case nothing is written to any sink, and for the
values 0..4 the call returns the sink. -/
theorem operator_lshift_throws_iff (os : ostream) (type : backend_t) (σ : Sinks) :
    ((∃ e, (operator_lshift os type σ).1 = .error e) ↔ ¬ (0 ≤ type.val ∧ type.val ≤ 4)) ∧
    (¬ (0 ≤ type.val ∧ type.val ≤ 4) →
      operator_lshift os type σ = (.error ⟨"Not supported ostream enum."⟩, σ)) ∧
    ((0 ≤ type.val ∧ type.val ≤ 4) → (operator_lshift os type σ).1 = .ok os) := by
  obtain ⟨v⟩ := type
  simp only [operator_lshift, backend_t.internal, backend_t.nnpack, backend_t.libdnn,
    backend_t.avx, backend_t.opencl, backend_t.mk.injEq]
  refine ⟨?_, ?_, ?_⟩
  · split_ifs <;> simp <;> omega
  · intro h
    split_ifs <;> first | rfl | omega
  · intro h
    split_ifs <;> first | rfl | omega

/-- Instance of C3 at the descriptor `static_cast<backend_t>(7)`, written to a sink that
holds "log: ": the call throws and every sink is as before. -/
theorem operator_lshift_throws_iff_witness :
    operator_lshift 0 ⟨7⟩ (fun _ => ostream_state.holding "log: ") =
      (.error ⟨"Not supported ostream enum."⟩, fun _ => ostream_state.holding "log: ") :=
  (operator_lshift_throws_iff 0 ⟨7⟩ (fun _ => ostream_state.holding "log: ")).2.1
    (by decide)

/-! ## Engine selector -/

/-- C4, as the code has it: `default_engine` returns `backend_t::avx` exactly when
`CNN_USE_AVX` is defined and one of `__AVX__`, `__AVX2__` is defined, and
`backend_t::internal` otherwise; being a function of the flags alone, it returns the same
descriptor whenever the flags are the same. -/
theorem default_engine_spec (f : BuildFlags) :
    default_engine f =
      if f.CNN_USE_AVX && (f.__AVX__ || f.__AVX2__) then backend_t.avx
      else backend_t.internal := by
  rcases f with ⟨a, b, c⟩
  cases a <;> cases b <;> cases c <;> rfl

/-- C4 as stated fails: with `__AVX__` defined but `CNN_USE_AVX` not defined,
`default_engine` returns `backend_t::internal`, not `backend_t::avx`. -/
theorem default_engine_avx_without_cnn_use_avx :
    default_engine { CNN_USE_AVX := false, __AVX__ := true, __AVX2__ := false } =
        backend_t.internal ∧
      default_engine { CNN_USE_AVX := false, __AVX__ := true, __AVX2__ := false } ≠
        backend_t.avx := by
  decide

/-! ## Lifecycle guard, one call -/

/-- C5: `initialize` throws exactly when the flag is unset and `nnp_initialize` reports a
status other than `nnp_status_success`; it then throws the `nn_error` "Cannot initialize
NNPACK." and leaves the flag unset. -/
theorem initialize_throws_iff (self : NNPackInitializer) (w : NNPack) :
    ((∃ e, (initialize_ self w).1 = .error e) ↔
      (self.initialized_ = false ∧ ( nnp_initialize w).1 ≠ nnp_status_success)) ∧
    ((self.initialized_ = false ∧ ( nnp_initialize w).1 ≠ nnp_status_success) →
      (initialize_ self w).1 = .error ⟨"Cannot initialize NNPACK."⟩ ∧
      (initialize_ self w).2.1 = self ∧
      (initialize_ self w).2.1.initialized_ = false) := by
  unfold initialize_
  dsimp only
  constructor
  · split_ifs <;> simp_all
  · rintro ⟨h1, h2⟩
    simp [h1, h2]

/-- Instance of C5 on the singleton as constructed, with an engine that reports status
51: the call throws and the flag is still unset. -/
theorem initialize_throws_iff_witness :
    (initialize_ getInstance ⟨fun _ => 51, 0⟩).1 = .error ⟨"Cannot initialize NNPACK."⟩ ∧
    (initialize_ getInstance ⟨fun _ => 51, 0⟩).2.1 = getInstance ∧
    (initialize_ getInstance ⟨fun _ => 51, 0⟩).2.1.initialized_ = false :=
  (initialize_throws_iff getInstance ⟨fun _ => 51, 0⟩).2 (by decide)

/-- C6: a call of `initialize` that returns normally leaves the flag set; from a state
where the flag is set, a call returns normally, does not invoke `nnp_initialize` and
changes nothing, whatever `nnp_initialize` would report; hence the flag, once set, stays
set over any number of further calls. -/
theorem initialize_flag_never_resets (self : NNPackInitializer) (w : NNPack) :
    ((initialize_ self w).1 = .ok () → (initialize_ self w).2.1.initialized_ = true) ∧
    (self.initialized_ = true → initialize_ self w = (.ok (), self, w)) ∧
    (self.initialized_ = true → ∀ n, after n self w = (self, w)) ∧
    (∀ n m, n ≤ m → (after n self w).1.initialized_ = true →
      (after m self w).1.initialized_ = true) := by
  have hnoop : ∀ (s : NNPackInitializer) (v : NNPack), s.initialized_ = true →
      initialize_ s v = (.ok (), s, v) := by
    intro s v h
    simp [initialize_, h]
  have hafter : ∀ (s : NNPackInitializer) (v : NNPack), s.initialized_ = true →
      ∀ n, after n s v = (s, v) := by
    intro s v h n
    induction n with
    | zero => rfl
    | succ n ih => simp only [after]; rw [ih, hnoop s v h]
  refine ⟨?_, hnoop self w, hafter self w, ?_⟩
  · unfold initialize_
    dsimp only
    split_ifs with h1 h2 <;> simp [h1]
  · intro n m hnm h
    obtain ⟨d, rfl⟩ := Nat.exists_eq_add_of_le hnm
    clear hnm
    induction d with
    | zero => exact h
    | succ d ih =>
      show (initialize_ (after (n + d) self w).1 (after (n + d) self w).2).2.1.initialized_
        = true
      rw [hnoop _ _ ih]
      exact ih

/-- Instance of C6 on an initialized guard, with an engine that would report status 51:
the call returns normally and changes nothing, and so do five calls in a row. -/
theorem initialize_flag_never_resets_witness :
    initialize_ ⟨true⟩ ⟨fun _ => 51, 0⟩ = (.ok (), ⟨true⟩, ⟨fun _ => 51, 0⟩) ∧
    after 5 ⟨true⟩ ⟨fun _ => 51, 0⟩ = (⟨true⟩, ⟨fun _ => 51, 0⟩) :=
  ⟨(initialize_flag_never_resets ⟨true⟩ ⟨fun _ => 51, 0⟩).2.1 rfl,
   (initialize_flag_never_resets ⟨true⟩ ⟨fun _ => 51, 0⟩).2.2.1 rfl 5⟩

/-! ## Lifecycle guard, sequential runs -/

/-- C1, as the code has it: `initialize` is idempotent once it has succeeded and retries
after a failure. For `N ≥ 1` calls from the uninitialized state: if the first invocation
of `nnp_initialize` reports success, `nnp_initialize` is invoked exactly once and all `N`
calls return normally; if its first `N` invocations all report failure, it is invoked `N`
times, once per call, and all `N` calls throw. -/
theorem initialize_idempotent_once_succeeded (N : Nat) (hN : 1 ≤ N) (w : NNPack) :
    (( nnp_initialize w).1 = nnp_status_success →
      setups N getInstance w = 1 ∧ ∀ k, k < N → outcome k getInstance w = .ok ()) ∧
    ((∀ j, j < N → w.status (w.invocations + j) ≠ nnp_status_success) →
      setups N getInstance w = N ∧
      ∀ k, k < N → outcome k getInstance w = .error ⟨"Cannot initialize NNPACK."⟩) := by
  constructor
  · intro h0
    have h0 : w.status (w.invocations + 0) = nnp_status_success := h0
    constructor
    · unfold setups
      rcases after_spec N w with ⟨_, _, hall⟩ | ⟨_, m, hm, hinv, _, hall⟩
      · exact absurd h0 (hall 0 hN)
      · cases m with
        | zero => omega
        | succ m => exact absurd h0 (hall 0 (Nat.succ_pos m))
    · intro k _
      exact (outcome_ok_iff k w).mpr (fun h => h 0 (Nat.succ_pos k) h0)
  · intro hall
    constructor
    · unfold setups
      rcases after_spec N w with ⟨_, hinv, _⟩ | ⟨_, m, hm, _, hs, _⟩
      · omega
      · exact absurd hs (hall m hm)
    · intro k hk
      exact (outcome_error_iff k w).mpr (fun j hj => hall j (by omega))

/-- Witness of C1 as amended: three calls with an engine that always reports success (one
invocation, all return), and three calls with an engine that always reports status 51
(three invocations, all throw). -/
theorem initialize_idempotent_once_succeeded_witness :
    (setups 3 getInstance ⟨fun _ => 0, 0⟩ = 1 ∧
      ∀ k, k < 3 → outcome k getInstance ⟨fun _ => 0, 0⟩ = .ok ()) ∧
    (setups 3 getInstance ⟨fun _ => 51, 0⟩ = 3 ∧
      ∀ k, k < 3 →
        outcome k getInstance ⟨fun _ => 51, 0⟩ = .error ⟨"Cannot initialize NNPACK."⟩) :=
  ⟨(initialize_idempotent_once_succeeded 3 (by decide) ⟨fun _ => 0, 0⟩).1 (by decide),
   (initialize_idempotent_once_succeeded 3 (by decide) ⟨fun _ => 51, 0⟩).2
     (fun _ _ => by show (51 : Int) ≠ 0; decide)⟩

/-- C1 as stated fails: with an engine that always reports status 51, two calls make two
invocations of `nnp_initialize`; with an engine that reports status 51 and then success,
the first call throws and the second returns normally. -/
theorem initialize_retries_after_failure :
    setups 2 getInstance ⟨fun _ => 51, 0⟩ = 2 ∧
    ¬ setups 2 getInstance ⟨fun _ => 51, 0⟩ ≤ 1 ∧
    outcome 0 getInstance ⟨fun k => if k = 0 then 51 else 0, 0⟩ =
      .error ⟨"Cannot initialize NNPACK."⟩ ∧
    outcome 1 getInstance ⟨fun k => if k = 0 then 51 else 0, 0⟩ = .ok () := by
  decide

/-- C10: over `N` successive calls from the uninitialized state, for any sequence of
statuses of `nnp_initialize`: a call invokes `nnp_initialize` exactly when every earlier
call threw; the number of invocations is the number of throwing calls, plus one if some
call returned normally; at most one of the invocations made reports success; and if call
`m` is the first to return normally, every call before it throws and every call from it
on returns normally. -/
theorem initialize_sequential_run (w : NNPack) (N : Nat) :
    (∀ k, k < N → (invokes k getInstance w = true ↔
      ∀ j, j < k → outcome j getInstance w = .error ⟨"Cannot initialize NNPACK."⟩)) ∧
    (setups N getInstance w =
      (List.range N).countP (fun k => decide (outcome k getInstance w ≠ .ok ())) +
        (if (List.range N).any (fun k => decide (outcome k getInstance w = .ok ())) then 1
          else 0)) ∧
    (∀ i j, i < setups N getInstance w → j < setups N getInstance w →
      w.status (w.invocations + i) = nnp_status_success →
      w.status (w.invocations + j) = nnp_status_success → i = j) ∧
    (∀ m, m < N → outcome m getInstance w = .ok () →
      (∀ j, j < m → outcome j getInstance w ≠ .ok ()) →
      ∀ k, k < N →
        (k < m → outcome k getInstance w = .error ⟨"Cannot initialize NNPACK."⟩) ∧
        (m ≤ k → outcome k getInstance w = .ok ())) := by
  refine ⟨?_, setups_eq N w, ?_, ?_⟩
  · intro k _
    rw [invokes_iff]
    constructor
    · intro hall j hj
      exact (outcome_error_iff j w).mpr (fun i hi => hall i (by omega))
    · intro hall
      cases k with
      | zero => intro j hj; exact absurd hj (Nat.not_lt_zero j)
      | succ k => exact (outcome_error_iff k w).mp (hall k (Nat.lt_succ_self k))
  · intro i j hi hj hsi hsj
    have h1 := setups_success_last N w i hi hsi
    have h2 := setups_success_last N w j hj hsj
    omega
  · intro m _ hm hfirst k _
    constructor
    · intro hkm
      rcases outcome_cases k getInstance w with h | h
      · exact absurd h (hfirst k hkm)
      · exact h
    · intro hmk
      have h := (outcome_ok_iff m w).mp hm
      exact (outcome_ok_iff k w).mpr (fun hall => h (fun j hj => hall j (by omega)))

/-- Instance of C10: four calls with an engine that reports status 51 twice and success
from then on. Three invocations are made, call 2 is the first to return normally, calls
0 and 1 throw and calls 2 and 3 return normally. -/
theorem initialize_sequential_run_witness :
    setups 4 getInstance ⟨fun k => if k < 2 then 51 else 0, 0⟩ = 3 ∧
    ∀ k, k < 4 →
      (k < 2 → outcome k getInstance ⟨fun k => if k < 2 then 51 else 0, 0⟩ =
        .error ⟨"Cannot initialize NNPACK."⟩) ∧
      (2 ≤ k → outcome k getInstance ⟨fun k => if k < 2 then 51 else 0, 0⟩ = .ok ()) :=
  ⟨(initialize_sequential_run ⟨fun k => if k < 2 then 51 else 0, 0⟩ 4).2.1.trans (by decide),
   (initialize_sequential_run ⟨fun k => if k < 2 then 51 else 0, 0⟩ 4).2.2.2 2 (by decide)
     (by decide) (by decide)⟩

/-! ## Lifecycle guard, concurrent callers -/

/-- C9, as the code has it: `initialize` takes no lock. Under every statement-level
interleaving of `T` callers started on the uninitialized singleton: each caller invokes
`nnp_initialize` at most once and the invocations made are exactly those of the callers,
so at most `T` are made; a caller that reads the flag while it is unset goes on to the
call, and a caller that stands at the call makes exactly one invocation once it is next
scheduled, whatever the flag has become meanwhile, so two callers that have both read the
flag unset make two invocations; a caller has returned normally only if the flag is set,
the flag is set only if some invocation reported success, and a caller has thrown only if
some invocation reported a failure; once the flag is set it stays set, and a caller that
then enters returns without invoking `nnp_initialize`. -/
theorem initialize_interleavings (T : Nat) (w : NNPack) (sched : List Nat) :
    (∀ t : Nat, Callers.invokedBy t sched (Callers.start T w) ≤ 1) ∧
    ((Callers.run sched (Callers.start T w)).nnpack.invocations =
      w.invocations +
        ((List.range T).map (fun t => Callers.invokedBy t sched (Callers.start T w))).sum) ∧
    ((Callers.run sched (Callers.start T w)).nnpack.invocations ≤ w.invocations + T) ∧
    ((Callers.run sched (Callers.start T w)).self.initialized_ = false →
      ∀ t : Nat, (Callers.run sched (Callers.start T w)).pcs[t]? = some Pc.entry →
        (Callers.step t (Callers.run sched (Callers.start T w))).pcs[t]? = some Pc.call) ∧
    (∀ (t : Nat) (more : List Nat),
      (Callers.run sched (Callers.start T w)).pcs[t]? = some Pc.call → t ∈ more →
        Callers.invokedBy t more (Callers.run sched (Callers.start T w)) = 1) ∧
    (∀ (t u : Nat) (more : List Nat), t ≠ u →
      (Callers.run sched (Callers.start T w)).pcs[t]? = some Pc.call →
      (Callers.run sched (Callers.start T w)).pcs[u]? = some Pc.call →
      t ∈ more → u ∈ more →
        (Callers.run more (Callers.run sched (Callers.start T w))).nnpack.invocations =
          (Callers.run sched (Callers.start T w)).nnpack.invocations + 2 +
            (((List.range T).filter (fun i => decide (i ≠ t ∧ i ≠ u))).map (fun i =>
              Callers.invokedBy i more (Callers.run sched (Callers.start T w)))).sum) ∧
    (∀ t : Nat, (Callers.run sched (Callers.start T w)).pcs[t]? = some Pc.returned →
      (Callers.run sched (Callers.start T w)).self.initialized_ = true) ∧
    ((Callers.run sched (Callers.start T w)).self.initialized_ = true →
      ∃ i, w.invocations ≤ i ∧
        i < (Callers.run sched (Callers.start T w)).nnpack.invocations ∧
        w.status i = nnp_status_success) ∧
    (∀ t : Nat, (Callers.run sched (Callers.start T w)).pcs[t]? = some Pc.thrown →
      ∃ i, w.invocations ≤ i ∧
        i < (Callers.run sched (Callers.start T w)).nnpack.invocations ∧
        w.status i ≠ nnp_status_success) ∧
    ((Callers.run sched (Callers.start T w)).self.initialized_ = true →
      ∀ more, (Callers.run more (Callers.run sched (Callers.start T w))).self.initialized_
        = true) ∧
    ((Callers.run sched (Callers.start T w)).self.initialized_ = true →
      ∀ t : Nat, (Callers.run sched (Callers.start T w)).pcs[t]? = some Pc.entry →
        (Callers.step t (Callers.run sched (Callers.start T w))).pcs[t]? = some Pc.returned ∧
        (Callers.step t (Callers.run sched (Callers.start T w))).nnpack =
          (Callers.run sched (Callers.start T w)).nnpack) := by
  have hI := Callers.inv_run sched (Callers.inv_start T w)
  have hlen := Callers.run_length sched (Callers.start T w)
  have hone : ∀ t : Nat, Callers.invokedBy t sched (Callers.start T w) ≤ 1 := by
    intro t
    have h1 := Callers.invokedBy_le_pendingAt t sched (Callers.start T w)
    have h2 := Callers.pendingAt_le_one t (Callers.start T w)
    omega
  have htot := Callers.run_invocations sched (Callers.start T w)
  simp only [Callers.start, List.length_replicate] at htot hlen
  refine ⟨hone, htot, ?_⟩
  clear hone htot
  change (Callers.run sched (Callers.start T w)).pcs.length = T at hlen
  generalize Callers.run sched (Callers.start T w) = s at hI hlen ⊢
  obtain ⟨_, _, h3, h4, h5⟩ := hI
  have hlt : ∀ {t : Nat} {pc : Pc}, s.pcs[t]? = some pc → t < s.pcs.length := by
    intro t pc ht
    rcases Nat.lt_or_ge t s.pcs.length with h | h
    · exact h
    · rw [List.getElem?_eq_none h] at ht; cases ht
  refine ⟨by omega, ?_, ?_, ?_, ?_, h4, ?_, ?_, ?_⟩
  · intro hf t ht
    rw [Callers.step_pcs_self ht]
    simp [Pc.step, hf]
  · intro t more ht hmem
    exact Callers.invokedBy_of_call t more s ht hmem
  · intro t u more htu ht hu hmt hmu
    rw [Callers.run_invocations more s, hlen,
      Callers.sum_split_two _ T t u htu (hlen ▸ hlt ht) (hlen ▸ hlt hu),
      Callers.invokedBy_of_call t more s ht hmt, Callers.invokedBy_of_call u more s hu hmu]
    omega
  · intro (t : Nat) ht
    exact h5 _ (List.getElem?_mem ht)
  · intro (t : Nat) ht
    exact h5 _ (List.getElem?_mem ht)
  · intro hf more
    exact Callers.run_flag more hf
  · intro hf t ht
    have := hlt ht
    simp [Callers.step, ht, Pc.step, hf, this]

/-- Instance of C9 as amended, with two callers and an engine that reports success. When
both callers have read the flag unset (interleaving 0, 1) and each is then scheduled,
two invocations are made. When caller 0 runs `initialize` to its end first, caller 1,
entering afterwards, returns at once and the library is not invoked again. -/
theorem initialize_interleavings_witness :
    ((Callers.run [0, 1] (Callers.run [0, 1] (Callers.start 2 ⟨fun _ => 0, 0⟩))).nnpack.invocations
      = 2) ∧
    ((Callers.step 1 (Callers.run [0, 0, 0, 0]
      (Callers.start 2 ⟨fun _ => 0, 0⟩))).pcs[1]? = some Pc.returned ∧
    (Callers.step 1 (Callers.run [0, 0, 0, 0] (Callers.start 2 ⟨fun _ => 0, 0⟩))).nnpack =
      (Callers.run [0, 0, 0, 0] (Callers.start 2 ⟨fun _ => 0, 0⟩)).nnpack) :=
  ⟨((initialize_interleavings 2 ⟨fun _ => 0, 0⟩ [0, 1]).2.2.2.2.2.1 0 1 [0, 1] (by decide)
      (by decide) (by decide) (by decide) (by decide)).trans (by decide),
   (initialize_interleavings 2 ⟨fun _ => 0, 0⟩ [0, 0, 0, 0]).2.2.2.2.2.2.2.2.2.2 (by decide) 1
     (by decide)⟩

/-- C9 as stated fails: two callers that both read the flag before either sets it both
invoke `nnp_initialize` (two invocations, both callers return); and when the first
invocation reports status 51 and the second success, under the same interleaving one
caller throws and the other returns normally. -/
theorem initialize_race_two_setups :
    (Callers.run [0, 1, 0, 1, 0, 1, 0, 1]
      (Callers.start 2 ⟨fun _ => 0, 0⟩)).nnpack.invocations = 2 ∧
    (Callers.run [0, 1, 0, 1, 0, 1, 0, 1]
      (Callers.start 2 ⟨fun _ => 0, 0⟩)).pcs = [Pc.returned, Pc.returned] ∧
    (Callers.run [0, 1, 0, 1, 0, 1, 0, 1]
      (Callers.start 2 ⟨fun k => if k = 0 then 51 else 0, 0⟩)).pcs =
        [Pc.thrown, Pc.returned] := by
  decide

/-! ## The class `backend` -/

/-- C7, evaluated on the code: the constructor does not store its argument. On storage
whose `ctx_` member holds the address 2, constructing with the context at address 1, or
with `nullptr`, or with any other argument, yields a backend whose `get_context()` is
the address 2. -/
theorem backend_ctor_drops_context :
    backend.get_context (backend.backend ⟨some 2, none⟩ (some 1)) = some 2 ∧
    backend.get_context (backend.backend ⟨some 2, none⟩ none) = some 2 ∧
    (∀ c, backend.get_context (backend.backend ⟨some 2, none⟩ c) = some 2) := by
  refine ⟨rfl, rfl, fun _ => rfl⟩

/-- C8: after `set_layer(l)` the bound layer is `l` whatever was bound before, so two
successive bindings leave the second one, and `get_context()` is unchanged. -/
theorem set_layer_rebinds (b : backend) (l l1 l2 : layerptr_t) :
    (backend.set_layer b l).layer_ = l ∧
    (backend.set_layer (backend.set_layer b l1) l2).layer_ = l2 ∧
    backend.get_context (backend.set_layer b l) = backend.get_context b ∧
    (backend.set_layer b l).ctx_ = b.ctx_ := by
  refine ⟨rfl, rfl, rfl, rfl⟩

end tiny_dnn.core
